import Mathlib

/-!
Verification development for the `async_demo` micro-benchmark harness
(`src/src/lib.rs`, `src/src/main.rs`).

The benchmark core is embedded shallowly:

* `Benchmark.statistic` mirrors `statistic` in `src/src/lib.rs`.  The Rust
  function finishes with `variance.sqrt()` on an `f32`; since `Real.sqrt`
  is noncomputable in Lean, the embedded function returns the exact pair
  `(mean, variance)` over `ℚ` and theorems phrase the reported standard
  deviation as `Real.sqrt` of the second component.
* `Benchmark.average_time` mirrors `average_time` in `src/src/lib.rs` as an
  explicit state-passing loop.  The `async_func` argument and the
  `Instant` timer are abstracted by a `Benchmark.Env` record whose fields
  may depend on the test index and the trial index (network responses and
  wall-clock readings vary from call to call).  `std::process::exit(1)`
  on a non-success status and the `expect("Repeats equal zero")` panic
  are modelled as `Except.error`.  The observable side effects the claims
  talk about (`thread::sleep`, executor invocations, recorded samples)
  are emitted as an explicit `Benchmark.Event` trace.
* The concurrency window of `ordered_get` / `unordered_get` in
  `src/src/main.rs` lives in the `futures` crate (`buffered` /
  `buffer_unordered`), whose source is not part of this repository; it is
  modelled from the specification as a sliding-window scheduler driven by
  an explicit completion schedule (`Benchmark.execLoop`).
-/

deriving instance DecidableEq for Except

namespace Benchmark

/-- The `Test` configuration record of `src/src/lib.rs` (one benchmark round). -/
structure Test where
  label : String
  url_get : String
  requests_number : Nat
  concurrent_requests : Nat
  repeats : Nat
  delay_s : Nat
deriving DecidableEq

/-- `statistic` of `src/src/lib.rs`, over exact rationals.  The source
returns `Some((mean, variance.sqrt()))`; here the pair carries
`(mean, variance)` because `Real.sqrt` is noncomputable, and theorems
apply `Real.sqrt` to the second component where the claim speaks of the
standard deviation. -/
def statistic (data : List ℚ) : Option (ℚ × ℚ) :=
  if data.length = 0 then none
  else
    let count : ℚ := (data.length : ℚ)
    let mean : ℚ := data.sum / count
    let variance : ℚ := ((data.map fun value => (mean - value) * (mean - value)).sum) / count
    some (mean, variance)

/-- The Statistics contract exactly as the spec words it (§4.1): arithmetic
mean `μ = Σx / n` and population variance `Σ(x-μ)² / n` (divide by `n`,
not `n-1`); "no result" on the empty sequence.  Used only to compare the
spec's formula with the source's `statistic`. -/
def statistic_spec (data : List ℚ) : Option (ℚ × ℚ) :=
  if data = [] then none
  else
    let n : ℚ := (data.length : ℚ)
    let mean : ℚ := data.sum / n
    some (mean, ((data.map fun x => (x - mean) * (x - mean)).sum) / n)

/-- `StatusCode::is_success` of the `http` crate: a 2xx status. -/
def isSuccessStatus (status : Nat) : Bool :=
  decide (200 ≤ status ∧ status < 300)

/-- The first non-success status of a response vector, in iteration order —
the status on which `average_time` calls `std::process::exit(1)`
(`src/src/lib.rs` lines 55–62). -/
def firstBadStatus (resp : List (Nat × String)) : Option Nat :=
  (resp.find? fun r => ! isSuccessStatus r.1).map Prod.fst

/-- Observable actions of one `average_time` run: `thread::sleep`,
an invocation of the executor argument `async_func` (with the
concurrency limit and URL vector it received), and `results.push(time)`. -/
inductive Event where
  | sleep (secs : Nat)
  | call (conc : Nat) (urls : List String)
  | sample (t : ℚ)
deriving DecidableEq

/-- Errors that terminate the process in `average_time`:
`std::process::exit(1)` on a non-success status, and the
`expect("Repeats equal zero")` panic when `statistic` returns `None`. -/
inductive RunError where
  | badStatus (code : Nat)
  | emptyRepeats
deriving DecidableEq

/-- Abstraction of `average_time`'s environment: `exec tidx idx conc urls`
is what the `async_func` argument returns for trial `idx` of test `tidx`
when invoked with concurrency `conc` and URL vector `urls`;
`elapsed tidx idx` is the `Instant` timer reading for that trial. -/
structure Env where
  exec : Nat → Nat → Nat → List String → List (Nat × String)
  elapsed : Nat → Nat → ℚ

/-- The sleep performed at the head of the trial body:
`if idx != 1 && test_idx != 0 { thread::sleep(...) }`
(`src/src/lib.rs` lines 45–47). -/
def sleepEvents (tidx idx : Nat) (test : Test) : List Event :=
  if idx ≠ 1 ∧ tidx ≠ 0 then [Event.sleep test.delay_s] else []

/-- `vec![test.url_get.clone(); test.requests_number]` (`src/src/lib.rs` line 49). -/
def trialUrls (test : Test) : List String :=
  List.replicate test.requests_number test.url_get

/-- One iteration of the `for idx in 1..=test.repeats` body of
`average_time` (`src/src/lib.rs` lines 44–66): conditional sleep, build the
URL vector, time the executor call, exit on the first non-success status
(before the sample is pushed), otherwise record the elapsed time. -/
def trialStep (env : Env) (tidx : Nat) (test : Test) (idx : Nat) :
    Except (RunError × List Event) (ℚ × List Event) :=
  let urls := trialUrls test
  let resp := env.exec tidx idx test.concurrent_requests urls
  match firstBadStatus resp with
  | some code =>
      .error (.badStatus code, sleepEvents tidx idx test ++ [Event.call test.concurrent_requests urls])
  | none =>
      let time := env.elapsed tidx idx
      .ok (time, sleepEvents tidx idx test ++
        [Event.call test.concurrent_requests urls, Event.sample time])

/-- The trial loop of `average_time`, folding the remaining trial indices
through `trialStep` while accumulating samples and the event trace. -/
def runTrialsAux (env : Env) (tidx : Nat) (test : Test) :
    List Nat → List ℚ → List Event → Except (RunError × List Event) (List ℚ × List Event)
  | [], samples, evs => .ok (samples, evs)
  | idx :: rest, samples, evs =>
    match trialStep env tidx test idx with
    | .error (e, tevs) => .error (e, evs ++ tevs)
    | .ok (time, tevs) => runTrialsAux env tidx test rest (samples ++ [time]) (evs ++ tevs)

/-- All `repeats` trials of one test: `for idx in 1..=test.repeats`. -/
def runTrials (env : Env) (tidx : Nat) (test : Test) :
    Except (RunError × List Event) (List ℚ × List Event) :=
  runTrialsAux env tidx test (List.range' 1 test.repeats) [] []

/-- One test of the suite loop: run the trials, then
`statistic(&results).expect("Repeats equal zero")`
(`src/src/lib.rs` lines 43–73). -/
def runTest (env : Env) (tidx : Nat) (test : Test) :
    Except (RunError × List Event) ((ℚ × ℚ) × List Event) :=
  match runTrials env tidx test with
  | .error e => .error e
  | .ok (samples, evs) =>
    match statistic samples with
    | none => .error (.emptyRepeats, evs)
    | some ms => .ok (ms, evs)

/-- The suite loop of `average_time` over `tests.iter().enumerate()`,
accumulating one `(mean, variance)` pair per test and the event trace. -/
def averageTimeAux (env : Env) :
    Nat → List Test → List (ℚ × ℚ) → List Event →
      Except (RunError × List Event) (List (ℚ × ℚ) × List Event)
  | _, [], acc, evs => .ok (acc, evs)
  | tidx, test :: rest, acc, evs =>
    match runTest env tidx test with
    | .error (e, tevs) => .error (e, evs ++ tevs)
    | .ok (ms, tevs) => averageTimeAux env (tidx + 1) rest (acc ++ [ms]) (evs ++ tevs)

/-- `average_time` of `src/src/lib.rs`: the whole suite run.  The `title`
argument only feeds `println!` in the source and is ignored here. -/
def average_time (env : Env) (tests : List Test) (_title : String) :
    Except (RunError × List Event) (List (ℚ × ℚ) × List Event) :=
  averageTimeAux env 0 tests [] []

/-- The timer readings a fully successful run of one test records:
one sample per trial index `1..=repeats`. -/
def trialTimes (env : Env) (tidx : Nat) (test : Test) : List ℚ :=
  (List.range' 1 test.repeats).map (env.elapsed tidx)

/-- The sleeps occurring in a trace, in order. -/
def sleepsOf (evs : List Event) : List Nat :=
  evs.filterMap fun e => match e with | .sleep s => some s | _ => none

/-- The executor invocations occurring in a trace, in order. -/
def callsOf (evs : List Event) : List Event :=
  evs.filter fun e => match e with | .call _ _ => true | _ => false

/-- The recorded timing samples occurring in a trace, in order. -/
def samplesOf (evs : List Event) : List ℚ :=
  evs.filterMap fun e => match e with | .sample t => some t | _ => none

/-- The event trace of one trial, whether or not the trial aborted. -/
def trialStepTrace (env : Env) (tidx : Nat) (test : Test) (idx : Nat) : List Event :=
  match trialStep env tidx test idx with
  | .ok (_, evs) => evs
  | .error (_, evs) => evs

/-- The events of a successful trial `idx` with elapsed time `t`. -/
def trialOkEvents (tidx : Nat) (test : Test) (idx : Nat) (t : ℚ) : List Event :=
  sleepEvents tidx idx test ++
    [Event.call test.concurrent_requests (trialUrls test), Event.sample t]

/-- The event trace produced by a run of trials `idxs`, all succeeding. -/
def trialsEvents (env : Env) (tidx : Nat) (test : Test) (idxs : List Nat) : List Event :=
  (idxs.map fun idx => trialOkEvents tidx test idx (env.elapsed tidx idx)).flatten

/-- The event trace produced by a suite of tests starting at suite index
`tidx`, all succeeding. -/
def testsEvents (env : Env) : Nat → List Test → List Event
  | _, [] => []
  | tidx, test :: rest =>
    trialsEvents env tidx test (List.range' 1 test.repeats) ++ testsEvents env (tidx + 1) rest

/-- The event trace of one whole test, whether or not it aborted. -/
def runTestTrace (env : Env) (tidx : Nat) (test : Test) : List Event :=
  match runTest env tidx test with
  | .ok (_, evs) => evs
  | .error (_, evs) => evs

/-- The inter-trial sleeps of a whole successful suite run, test by test:
no sleeps at all for the first test, and `repeats - 1` sleeps of that
test's own `delay_s` (one before every trial after the first) for each
later test. -/
def expectedSleeps : Nat → List Test → List Nat
  | _, [] => []
  | tidx, test :: rest =>
    (if tidx = 0 then [] else List.replicate (test.repeats - 1) test.delay_s) ++
      expectedSleeps (tidx + 1) rest

/-! ### Sliding-window batch executor

`ordered_get` and `unordered_get` in `src/src/main.rs` delegate the
concurrency window to `futures::stream::{buffered, buffer_unordered}`,
library code outside this repository.  The window itself is modelled from
the spec (§4.2, §5): "at most `concurrency_limit` requests are in flight
concurrently; as each completes, the next queued request (if any) is
let in", nondeterminism in completion order being an explicit
`sched : List Nat` choosing which in-flight request finishes next. -/

/-- Modelled from the spec: move queued requests (tagged with their
submission index) into the concurrency window until it holds `k` entries
or the queue is empty — the "sliding window" entry rule of §4.2. -/
def fill (k : Nat) : List (Nat × String) → List (Nat × String) →
    List (Nat × String) × List (Nat × String)
  | [], window => ([], window)
  | p :: ps, window =>
    if window.length < k then fill k ps (window ++ [p])
    else (p :: ps, window)

/-- Remove the `j`-th element of a list, returning it together with the
remaining elements (used to complete an arbitrary in-flight request). -/
def pick : Nat → List (Nat × String) → (Nat × String) × List (Nat × String)
  | _, [] => ((0, ""), [])
  | 0, x :: xs => (x, xs)
  | j + 1, x :: xs =>
    let r := pick j xs
    (r.1, x :: r.2)

/-- Modelled from the spec: the executor's main loop.  Each round first
tops the window up from the queue, then the schedule picks one in-flight
request to complete; its tag and URL are appended to the completion list.
The second component records the window occupancy observed at every
completion instant.  `fuel` bounds the rounds (one request completes per
round, so `urls.length` rounds drain everything). -/
def execLoop (k : Nat) : Nat → List Nat → List (Nat × String) → List (Nat × String) →
    List (Nat × String) → List Nat → List (Nat × String) × List Nat
  | 0, _, _, _, acc, wsizes => (acc.reverse, wsizes.reverse)
  | fuel + 1, sched, pending, window, acc, wsizes =>
    match fill k pending window with
    | (_, []) => (acc.reverse, wsizes.reverse)
    | (pending', w :: ws) =>
      let r := pick (sched.headD 0 % (w :: ws).length) (w :: ws)
      execLoop k fuel sched.tail pending' r.2 (r.1 :: acc) ((w :: ws).length :: wsizes)

/-- Modelled from the spec: run the whole batch for `urls`, starting from
an empty window.  Returns the completions (submission index, URL) in
completion order, plus the observed window occupancies. -/
def runWindow (k : Nat) (sched : List Nat) (urls : List String) :
    List (Nat × String) × List Nat :=
  execLoop k urls.length sched urls.enum [] [] []

/-- `unordered_get` of `src/src/main.rs`: one GET per URL through a window
of at most `k` in-flight requests (`buffer_unordered`), outcomes in
completion order.  `fetch` abstracts one HTTP exchange
`url ↦ (status, body)`. -/
def unordered_get (fetch : String → Nat × String) (k : Nat) (sched : List Nat)
    (urls : List String) : List (Nat × String) :=
  (runWindow k sched urls).1.map fun p => fetch p.2

/-- `ordered_get` of `src/src/main.rs`: same window, but `buffered`
re-associates completions with their submission indices, so the outcome
vector is reported in the original `urls` order. -/
def ordered_get (fetch : String → Nat × String) (k : Nat) (sched : List Nat)
    (urls : List String) : List (Nat × String) :=
  let completed := (runWindow k sched urls).1
  (List.range urls.length).filterMap fun i =>
    (completed.find? fun p => p.1 == i).map fun p => fetch p.2

/-! ### Concrete fixtures for evaluating the model -/

/-- A benign environment: every request returns status 200 with body `"ok"`,
and every trial's timer reads 1 second. -/
def okEnv : Env := ⟨fun _ _ _ _ => [(200, "ok")], fun _ _ => 1⟩

/-- An environment whose requests always return status 500. -/
def badEnv : Env := ⟨fun _ _ _ _ => [(500, "err")], fun _ _ => 1⟩

/-- A fetch oracle echoing the URL with status 200. -/
def wFetch : String → Nat × String := fun s => (200, s)

/-- An environment whose executor is the modelled `ordered_get` (empty
completion schedule) over `wFetch`, with constant timer readings. -/
def mEnv : Env := ⟨fun _ _ conc urls => ordered_get wFetch conc [] urls, fun _ _ => 1⟩

/-- One test with two repeats and a 5-second delay, at suite index 0. -/
def cexTests : List Test :=
  [{ label := "t1", url_get := "u", requests_number := 0, concurrent_requests := 1,
     repeats := 2, delay_s := 5 }]

/-- A two-test suite, one trial each. -/
def wTests : List Test :=
  [{ label := "t1", url_get := "u", requests_number := 1, concurrent_requests := 1,
     repeats := 1, delay_s := 0 },
   { label := "t2", url_get := "u", requests_number := 1, concurrent_requests := 2,
     repeats := 1, delay_s := 0 }]

/-- The results of running `wTests` under `okEnv`. -/
def wRes : List (ℚ × ℚ) := [(1, 0), (1, 0)]

/-- The event trace of running `wTests` under `okEnv`. -/
def wTrace : List Event :=
  [Event.call 1 ["u"], Event.sample 1, Event.call 2 ["u"], Event.sample 1]

/-- A test with two repeats and delay 5. -/
def wTestA : Test :=
  { label := "a", url_get := "u", requests_number := 1, concurrent_requests := 1,
    repeats := 2, delay_s := 5 }

/-- A test with two repeats and delay 7. -/
def wTestB : Test :=
  { label := "b", url_get := "u", requests_number := 1, concurrent_requests := 1,
    repeats := 2, delay_s := 7 }

/-- A two-test suite with two repeats each. -/
def wTests2 : List Test := [wTestA, wTestB]

/-- The event trace of running `wTests2` under `okEnv`: no sleep at all in
the first test, and one sleep (before its second trial) in the second. -/
def wTrace2 : List Event :=
  [Event.call 1 ["u"], Event.sample 1, Event.call 1 ["u"], Event.sample 1,
   Event.call 1 ["u"], Event.sample 1, Event.sleep 7, Event.call 1 ["u"], Event.sample 1]

/-- The event trace of running `wTestA` alone (suite index 0) under `okEnv`. -/
def wTrace8 : List Event :=
  [Event.call 1 ["u"], Event.sample 1, Event.call 1 ["u"], Event.sample 1]

/-- A test whose run under `badEnv` aborts on its first trial. -/
def wTestBad : Test :=
  { label := "bad", url_get := "u", requests_number := 1, concurrent_requests := 1,
    repeats := 2, delay_s := 5 }

/-- A test with `repeats = 0`. -/
def wTestZero : Test :=
  { label := "zero", url_get := "u", requests_number := 1, concurrent_requests := 1,
    repeats := 0, delay_s := 5 }

/-- A test with `requests_number = 0` and two repeats. -/
def wTestZeroReq : Test :=
  { label := "noreq", url_get := "u", requests_number := 0, concurrent_requests := 1,
    repeats := 2, delay_s := 3 }

/-! ### Basic lemmas about the trace combinators -/

theorem sleepsOf_append (l₁ l₂ : List Event) :
    sleepsOf (l₁ ++ l₂) = sleepsOf l₁ ++ sleepsOf l₂ :=
  List.filterMap_append l₁ l₂ _

theorem samplesOf_append (l₁ l₂ : List Event) :
    samplesOf (l₁ ++ l₂) = samplesOf l₁ ++ samplesOf l₂ :=
  List.filterMap_append l₁ l₂ _

theorem callsOf_append (l₁ l₂ : List Event) :
    callsOf (l₁ ++ l₂) = callsOf l₁ ++ callsOf l₂ :=
  List.filter_append l₁ l₂

theorem samplesOf_trialOkEvents (tidx : Nat) (test : Test) (idx : Nat) (t : ℚ) :
    samplesOf (trialOkEvents tidx test idx t) = [t] := by
  unfold trialOkEvents sleepEvents samplesOf
  split <;> simp [List.filterMap_cons]

theorem callsOf_trialOkEvents (tidx : Nat) (test : Test) (idx : Nat) (t : ℚ) :
    callsOf (trialOkEvents tidx test idx t) =
      [Event.call test.concurrent_requests (trialUrls test)] := by
  unfold trialOkEvents sleepEvents callsOf
  split <;> simp [List.filter_cons]

theorem sleepsOf_trialOkEvents (tidx : Nat) (test : Test) (idx : Nat) (t : ℚ) :
    sleepsOf (trialOkEvents tidx test idx t) =
      if idx ≠ 1 ∧ tidx ≠ 0 then [test.delay_s] else [] := by
  unfold trialOkEvents sleepEvents sleepsOf
  split <;> simp [List.filterMap_cons]

/-! ### Characterizing one trial -/

theorem trialStep_ok_of {env : Env} {tidx idx : Nat} {test : Test}
    (hfb : firstBadStatus (env.exec tidx idx test.concurrent_requests (trialUrls test)) = none) :
    trialStep env tidx test idx =
      .ok (env.elapsed tidx idx, trialOkEvents tidx test idx (env.elapsed tidx idx)) := by
  simp only [trialStep, trialOkEvents, hfb]

theorem trialStep_ok_inv {env : Env} {tidx idx : Nat} {test : Test} {t : ℚ} {evs : List Event}
    (h : trialStep env tidx test idx = .ok (t, evs)) :
    firstBadStatus (env.exec tidx idx test.concurrent_requests (trialUrls test)) = none ∧
      t = env.elapsed tidx idx ∧ evs = trialOkEvents tidx test idx t := by
  simp only [trialStep] at h
  rcases hfb : firstBadStatus (env.exec tidx idx test.concurrent_requests (trialUrls test)) with
    _ | c
  · rw [hfb] at h
    simp only [Except.ok.injEq, Prod.mk.injEq] at h
    refine ⟨rfl, h.1.symm, ?_⟩
    rw [← h.2, trialOkEvents, h.1]
  · rw [hfb] at h
    simp at h

theorem trialStep_error_inv {env : Env} {tidx idx : Nat} {test : Test} {e : RunError}
    {evs : List Event} (h : trialStep env tidx test idx = .error (e, evs)) :
    ∃ c, firstBadStatus (env.exec tidx idx test.concurrent_requests (trialUrls test)) = some c ∧
      e = .badStatus c ∧
      evs = sleepEvents tidx idx test ++
        [Event.call test.concurrent_requests (trialUrls test)] := by
  simp only [trialStep] at h
  rcases hfb : firstBadStatus (env.exec tidx idx test.concurrent_requests (trialUrls test)) with
    _ | c
  · rw [hfb] at h
    simp at h
  · rw [hfb] at h
    simp only [Except.error.injEq, Prod.mk.injEq] at h
    exact ⟨c, rfl, h.1.symm, h.2.symm⟩

/-! ### Characterizing the trial loop -/

theorem trialsEvents_nil (env : Env) (tidx : Nat) (test : Test) :
    trialsEvents env tidx test [] = [] := rfl

theorem trialsEvents_cons (env : Env) (tidx : Nat) (test : Test) (idx : Nat) (idxs : List Nat) :
    trialsEvents env tidx test (idx :: idxs) =
      trialOkEvents tidx test idx (env.elapsed tidx idx) ++ trialsEvents env tidx test idxs := by
  simp [trialsEvents]

theorem runTrialsAux_ok_of {env : Env} {tidx : Nat} {test : Test} :
    ∀ {idxs : List Nat} (s : List ℚ) (e : List Event),
      (∀ idx ∈ idxs,
        firstBadStatus (env.exec tidx idx test.concurrent_requests (trialUrls test)) = none) →
      runTrialsAux env tidx test idxs s e =
        .ok (s ++ idxs.map (env.elapsed tidx), e ++ trialsEvents env tidx test idxs)
  | [], s, e, _ => by simp [runTrialsAux, trialsEvents]
  | idx :: idxs, s, e, h => by
    simp only [runTrialsAux, trialStep_ok_of (h idx (by simp))]
    rw [runTrialsAux_ok_of (s ++ [env.elapsed tidx idx]) _ (fun i hi => h i (by simp [hi]))]
    simp [trialsEvents_cons]

theorem runTrialsAux_ok_inv {env : Env} {tidx : Nat} {test : Test} :
    ∀ {idxs : List Nat} {s s' : List ℚ} {e e' : List Event},
      runTrialsAux env tidx test idxs s e = .ok (s', e') →
      s' = s ++ idxs.map (env.elapsed tidx) ∧ e' = e ++ trialsEvents env tidx test idxs ∧
        ∀ idx ∈ idxs,
          firstBadStatus (env.exec tidx idx test.concurrent_requests (trialUrls test)) = none
  | [], s, s', e, e', h => by
    simp only [runTrialsAux, Except.ok.injEq, Prod.mk.injEq] at h
    simp [← h.1, ← h.2, trialsEvents]
  | idx :: idxs, s, s', e, e', h => by
    rw [runTrialsAux] at h
    rcases hstep : trialStep env tidx test idx with ⟨⟨err, tevs⟩⟩ | ⟨t, tevs⟩
    · rw [hstep] at h; simp at h
    · rw [hstep] at h
      obtain ⟨hfb, ht, hevs⟩ := trialStep_ok_inv hstep
      obtain ⟨hs, he, hall⟩ := runTrialsAux_ok_inv h
      subst ht
      refine ⟨by simpa using hs, ?_, ?_⟩
      · rw [he, hevs, trialsEvents_cons]
        simp
      · intro i hi
        rcases List.mem_cons.mp hi with rfl | hi
        · exact hfb
        · exact hall i hi

theorem samplesOf_trialsEvents (env : Env) (tidx : Nat) (test : Test) :
    ∀ idxs : List Nat,
      samplesOf (trialsEvents env tidx test idxs) = idxs.map (env.elapsed tidx)
  | [] => rfl
  | idx :: idxs => by
    rw [trialsEvents_cons, samplesOf_append, samplesOf_trialOkEvents,
      samplesOf_trialsEvents env tidx test idxs]
    rfl

theorem callsOf_trialsEvents (env : Env) (tidx : Nat) (test : Test) :
    ∀ idxs : List Nat,
      callsOf (trialsEvents env tidx test idxs) =
        List.replicate idxs.length (Event.call test.concurrent_requests (trialUrls test))
  | [] => rfl
  | idx :: idxs => by
    rw [trialsEvents_cons, callsOf_append, callsOf_trialOkEvents,
      callsOf_trialsEvents env tidx test idxs]
    simp [List.replicate_succ]

theorem sleepsOf_trialsEvents (env : Env) (tidx : Nat) (test : Test) :
    ∀ idxs : List Nat,
      sleepsOf (trialsEvents env tidx test idxs) =
        (idxs.map fun idx => if idx ≠ 1 ∧ tidx ≠ 0 then [test.delay_s] else []).flatten
  | [] => rfl
  | idx :: idxs => by
    rw [trialsEvents_cons, sleepsOf_append, sleepsOf_trialOkEvents,
      sleepsOf_trialsEvents env tidx test idxs]
    simp

theorem runTrialsAux_append (env : Env) (tidx : Nat) (test : Test) :
    ∀ (l₁ l₂ : List Nat) (s : List ℚ) (e : List Event),
      runTrialsAux env tidx test (l₁ ++ l₂) s e =
        match runTrialsAux env tidx test l₁ s e with
        | .error x => .error x
        | .ok (s', e') => runTrialsAux env tidx test l₂ s' e'
  | [], l₂, s, e => by simp [runTrialsAux]
  | idx :: l₁, l₂, s, e => by
    rw [List.cons_append, runTrialsAux, runTrialsAux]
    rcases hstep : trialStep env tidx test idx with ⟨⟨err, tevs⟩⟩ | ⟨t, tevs⟩
    · rfl
    · exact runTrialsAux_append env tidx test l₁ l₂ (s ++ [t]) (e ++ tevs)

/-! ### Characterizing `statistic` -/

theorem statistic_eq_none_iff (data : List ℚ) : statistic data = none ↔ data = [] := by
  unfold statistic
  rcases data with _ | ⟨x, xs⟩ <;> simp

theorem statistic_of_ne_nil {data : List ℚ} (h : data ≠ []) :
    statistic data =
      some (data.sum / (data.length : ℚ),
        ((data.map fun value =>
          (data.sum / (data.length : ℚ) - value) * (data.sum / (data.length : ℚ) - value)).sum) /
            (data.length : ℚ)) := by
  have hl : data.length ≠ 0 := by simpa [List.length_eq_zero] using h
  simp only [statistic, hl, if_false, ite_false]

/-! ### Characterizing one test -/

theorem runTest_ok_inv {env : Env} {tidx : Nat} {test : Test} {ms : ℚ × ℚ} {evs : List Event}
    (h : runTest env tidx test = .ok (ms, evs)) :
    statistic (trialTimes env tidx test) = some ms ∧
      evs = trialsEvents env tidx test (List.range' 1 test.repeats) ∧
      ∀ idx ∈ List.range' 1 test.repeats,
        firstBadStatus (env.exec tidx idx test.concurrent_requests (trialUrls test)) = none := by
  unfold runTest runTrials at h
  rcases htr : runTrialsAux env tidx test (List.range' 1 test.repeats) [] [] with x | ⟨s, e⟩
  · rw [htr] at h; simp at h
  · rw [htr] at h
    simp only [] at h
    obtain ⟨hs, he, hall⟩ := runTrialsAux_ok_inv htr
    rcases hst : statistic s with _ | ms'
    · rw [hst] at h; simp at h
    · rw [hst] at h
      simp only [Except.ok.injEq, Prod.mk.injEq] at h
      have hs' : s = trialTimes env tidx test := by simpa [trialTimes] using hs
      exact ⟨by rw [← hs', hst, h.1], by rw [← h.2, he]; simp, hall⟩

theorem runTest_ok_of {env : Env} {tidx : Nat} {test : Test} {ms : ℚ × ℚ}
    (hall : ∀ idx ∈ List.range' 1 test.repeats,
      firstBadStatus (env.exec tidx idx test.concurrent_requests (trialUrls test)) = none)
    (hms : statistic (trialTimes env tidx test) = some ms) :
    runTest env tidx test =
      .ok (ms, trialsEvents env tidx test (List.range' 1 test.repeats)) := by
  unfold runTest runTrials
  rw [runTrialsAux_ok_of [] [] hall]
  have hs : ([] : List ℚ) ++ (List.range' 1 test.repeats).map (env.elapsed tidx) =
      trialTimes env tidx test := by simp [trialTimes]
  rw [hs]
  simp only []
  rw [hms]
  simp

theorem runTest_of_repeats_zero {env : Env} {tidx : Nat} {test : Test}
    (h : test.repeats = 0) :
    runTest env tidx test = .error (.emptyRepeats, []) := by
  unfold runTest runTrials
  rw [h]
  simp [runTrialsAux, statistic]

/-! ### Characterizing the suite loop -/

theorem averageTimeAux_ok_inv {env : Env} :
    ∀ {tests : List Test} {t0 : Nat} {acc : List (ℚ × ℚ)} {evs0 : List Event}
      {res : List (ℚ × ℚ)} {evs : List Event},
      averageTimeAux env t0 tests acc evs0 = .ok (res, evs) →
      res.length = acc.length + tests.length ∧
        (∀ j, j < acc.length → res.get? j = acc.get? j) ∧
        (∀ i (hi : i < tests.length),
          res.get? (acc.length + i) = statistic (trialTimes env (t0 + i) (tests.get ⟨i, hi⟩))) ∧
        evs = evs0 ++ testsEvents env t0 tests
  | [], t0, acc, evs0, res, evs, h => by
    simp only [averageTimeAux, Except.ok.injEq, Prod.mk.injEq] at h
    refine ⟨by simp [← h.1], fun j hj => by rw [← h.1], fun i hi => absurd hi (by simp), ?_⟩
    rw [← h.2, testsEvents]
    simp
  | test :: rest, t0, acc, evs0, res, evs, h => by
    rw [averageTimeAux] at h
    rcases hrt : runTest env t0 test with ⟨⟨err, tevs⟩⟩ | ⟨ms, tevs⟩
    · rw [hrt] at h; simp at h
    · rw [hrt] at h
      simp only [] at h
      obtain ⟨hlen, hpre, hget, hevs⟩ := averageTimeAux_ok_inv h
      obtain ⟨hms, htevs, _⟩ := runTest_ok_inv hrt
      refine ⟨by simp at hlen ⊢; omega, ?_, ?_, ?_⟩
      · intro j hj
        rw [hpre j (by simp; omega), List.get?_append (by simpa using hj)]
      · intro i hi
        rcases i with _ | i
        · have hg : (test :: rest).get ⟨0, hi⟩ = test := rfl
          rw [Nat.add_zero, Nat.add_zero, hg, hms, hpre acc.length (by simp)]
          exact List.get?_concat_length acc ms
        · have h1 : acc.length + (i + 1) = (acc ++ [ms]).length + i := by simp; omega
          have h2 : t0 + (i + 1) = (t0 + 1) + i := by omega
          have hg : (test :: rest).get ⟨i + 1, hi⟩ =
            rest.get ⟨i, by simpa using Nat.lt_of_succ_lt_succ hi⟩ := rfl
          rw [h1, h2, hg]
          exact hget i _
      · rw [hevs, htevs, testsEvents]
        simp

theorem averageTimeAux_append (env : Env) :
    ∀ (l₁ l₂ : List Test) (t0 : Nat) (acc : List (ℚ × ℚ)) (evs : List Event),
      averageTimeAux env t0 (l₁ ++ l₂) acc evs =
        match averageTimeAux env t0 l₁ acc evs with
        | .error x => .error x
        | .ok (a, e) => averageTimeAux env (t0 + l₁.length) l₂ a e
  | [], l₂, t0, acc, evs => by simp [averageTimeAux]
  | test :: l₁, l₂, t0, acc, evs => by
    rw [List.cons_append, averageTimeAux, averageTimeAux]
    rcases hrt : runTest env t0 test with ⟨⟨err, tevs⟩⟩ | ⟨ms, tevs⟩
    · rfl
    · simp only []
      rw [averageTimeAux_append env l₁ l₂ (t0 + 1) (acc ++ [ms]) (evs ++ tevs)]
      have : t0 + 1 + l₁.length = t0 + (test :: l₁).length := by simp; omega
      rw [this]

/-! ### The sleep trace -/

theorem sleepsOf_sleepEvents (tidx idx : Nat) (test : Test) :
    sleepsOf (sleepEvents tidx idx test) =
      if idx ≠ 1 ∧ tidx ≠ 0 then [test.delay_s] else [] := by
  unfold sleepEvents sleepsOf
  split <;> simp [List.filterMap_cons]

theorem sleepsOf_trialStepTrace (env : Env) (tidx : Nat) (test : Test) (idx : Nat) :
    sleepsOf (trialStepTrace env tidx test idx) =
      if idx ≠ 1 ∧ tidx ≠ 0 then [test.delay_s] else [] := by
  unfold trialStepTrace
  rcases hstep : trialStep env tidx test idx with ⟨⟨e, evs⟩⟩ | ⟨t, evs⟩ <;> simp only []
  · obtain ⟨c, _, _, hevs⟩ := trialStep_error_inv hstep
    rw [hevs, sleepsOf_append, sleepsOf_sleepEvents]
    simp [sleepsOf]
  · obtain ⟨_, _, hevs⟩ := trialStep_ok_inv hstep
    rw [hevs, sleepsOf_trialOkEvents]

theorem flatten_sleeps_range' (tidx d : Nat) :
    ∀ m a : Nat, 2 ≤ a →
      ((List.range' a m).map fun idx => if idx ≠ 1 ∧ tidx ≠ 0 then [d] else []).flatten =
        if tidx = 0 then [] else List.replicate m d
  | 0, a, _ => by simp
  | m + 1, a, ha => by
    rw [List.range'_succ]
    simp only [List.map_cons, List.flatten_cons]
    rw [flatten_sleeps_range' tidx d m (a + 1) (by omega)]
    have h1 : a ≠ 1 := by omega
    by_cases h0 : tidx = 0 <;> simp [h0, h1, List.replicate_succ]

theorem sleepsOf_trialsEvents_range' (env : Env) (tidx : Nat) (test : Test) :
    sleepsOf (trialsEvents env tidx test (List.range' 1 test.repeats)) =
      if tidx = 0 then [] else List.replicate (test.repeats - 1) test.delay_s := by
  rw [sleepsOf_trialsEvents]
  rcases hr : test.repeats with _ | m
  · simp
  · rw [List.range'_succ]
    simp only [List.map_cons, List.flatten_cons]
    have h1 : ¬((1 : Nat) ≠ 1 ∧ tidx ≠ 0) := by simp
    rw [if_neg h1, flatten_sleeps_range' tidx test.delay_s m 2 (by omega)]
    simp

theorem sleepsOf_testsEvents (env : Env) :
    ∀ (tests : List Test) (t0 : Nat),
      sleepsOf (testsEvents env t0 tests) = expectedSleeps t0 tests
  | [], _ => rfl
  | test :: rest, t0 => by
    rw [testsEvents, sleepsOf_append, sleepsOf_trialsEvents_range',
      sleepsOf_testsEvents env rest (t0 + 1), expectedSleeps]

/-! ### Lemmas about the sliding-window executor -/

theorem fill_perm (k : Nat) :
    ∀ pending window : List (Nat × String),
      ((fill k pending window).1 ++ (fill k pending window).2).Perm (pending ++ window)
  | [], window => by simp [fill]
  | p :: ps, window => by
    rw [fill]
    split
    · refine (fill_perm k ps (window ++ [p])).trans ?_
      have h1 : ps ++ (window ++ [p]) = (ps ++ window) ++ [p] := by simp
      rw [h1]
      simpa using List.perm_append_singleton p (ps ++ window)
    · simp

theorem fill_window_le (k : Nat) :
    ∀ pending window : List (Nat × String), window.length ≤ k →
      (fill k pending window).2.length ≤ k
  | [], _, h => h
  | p :: ps, window, h => by
    rw [fill]
    split
    · next hlt => exact fill_window_le k ps (window ++ [p]) (by simp; omega)
    · exact h

theorem fill_window_ne_nil (k : Nat) :
    ∀ pending window : List (Nat × String), window ≠ [] → (fill k pending window).2 ≠ []
  | [], _, h => h
  | p :: ps, window, h => by
    rw [fill]
    split
    · exact fill_window_ne_nil k ps (window ++ [p]) (by simp)
    · exact h

theorem fill_window_eq_nil (k : Nat) (hk : 1 ≤ k) :
    ∀ pending window : List (Nat × String),
      (fill k pending window).2 = [] → pending = [] ∧ window = []
  | [], _, h => ⟨rfl, h⟩
  | p :: ps, window, h => by
    rw [fill] at h
    split at h
    · exact absurd h (fill_window_ne_nil k ps (window ++ [p]) (by simp))
    · next hnlt =>
        exfalso
        simp only [] at h
        rw [h] at hnlt
        simp at hnlt
        omega

theorem pick_perm :
    ∀ (j : Nat) (l : List (Nat × String)), j < l.length → ((pick j l).1 :: (pick j l).2).Perm l
  | _, [], h => absurd h (by simp)
  | 0, x :: xs, _ => by simp [pick]
  | j + 1, x :: xs, h => by
    simp only [pick]
    refine (List.Perm.swap x (pick j xs).1 (pick j xs).2).trans ?_
    exact (pick_perm j xs (by simpa using Nat.lt_of_succ_lt_succ h)).cons x

theorem execLoop_fst_perm {k : Nat} (hk : 1 ≤ k) :
    ∀ (fuel : Nat) (sched : List Nat) (pending window acc : List (Nat × String))
      (wsizes : List Nat), pending.length + window.length ≤ fuel →
      ((execLoop k fuel sched pending window acc wsizes).1).Perm (pending ++ window ++ acc)
  | 0, sched, pending, window, acc, wsizes, hfuel => by
    have hp : pending = [] := by rw [← List.length_eq_zero]; omega
    have hw : window = [] := by rw [← List.length_eq_zero]; omega
    subst hp; subst hw
    simp [execLoop]
  | fuel + 1, sched, pending, window, acc, wsizes, hfuel => by
    rw [execLoop]
    rcases hf : fill k pending window with ⟨p', wl⟩
    rcases wl with _ | ⟨w, ws⟩
    · obtain ⟨hp, hw⟩ := fill_window_eq_nil k hk pending window (by rw [hf])
      subst hp; subst hw
      simp
    · simp only []
      have hperm := fill_perm k pending window
      rw [hf] at hperm
      have hjlt : sched.headD 0 % (w :: ws).length < (w :: ws).length :=
        Nat.mod_lt _ (by simp)
      have hpick := pick_perm (sched.headD 0 % (w :: ws).length) (w :: ws) hjlt
      have hlen : p'.length +
          (pick (sched.headD 0 % (w :: ws).length) (w :: ws)).2.length ≤ fuel := by
        have h1 : p'.length + (w :: ws).length = pending.length + window.length := by
          simpa using hperm.length_eq
        have h2 : (pick (sched.headD 0 % (w :: ws).length) (w :: ws)).2.length + 1 =
            (w :: ws).length := by
          have h0 := hpick.length_eq
          rw [List.length_cons] at h0
          exact h0
        omega
      refine (execLoop_fst_perm hk fuel sched.tail p' _ _ _ hlen).trans ?_
      have hL : p' ++ (pick (sched.headD 0 % (w :: ws).length) (w :: ws)).2 ++
          ((pick (sched.headD 0 % (w :: ws).length) (w :: ws)).1 :: acc) =
          p' ++ ((pick (sched.headD 0 % (w :: ws).length) (w :: ws)).2 ++
            ((pick (sched.headD 0 % (w :: ws).length) (w :: ws)).1 :: acc)) := by simp
      rw [hL]
      refine ((List.perm_middle).append_left p').trans ?_
      have e1 : (pick (sched.headD 0 % (w :: ws).length) (w :: ws)).1 ::
          ((pick (sched.headD 0 % (w :: ws).length) (w :: ws)).2 ++ acc) =
          ((pick (sched.headD 0 % (w :: ws).length) (w :: ws)).1 ::
            (pick (sched.headD 0 % (w :: ws).length) (w :: ws)).2) ++ acc := rfl
      rw [e1]
      refine ((hpick.append_right acc).append_left p').trans ?_
      have e2 : p' ++ ((w :: ws) ++ acc) = (p' ++ (w :: ws)) ++ acc := by simp
      rw [e2]
      exact hperm.append_right acc

theorem execLoop_wsizes_le {k : Nat} :
    ∀ (fuel : Nat) (sched : List Nat) (pending window acc : List (Nat × String))
      (wsizes : List Nat), window.length ≤ k → (∀ s ∈ wsizes, s ≤ k) →
      ∀ s ∈ (execLoop k fuel sched pending window acc wsizes).2, s ≤ k
  | 0, sched, pending, window, acc, wsizes, _, hws => by
    rw [execLoop]
    intro s hs
    exact hws s (by simpa using hs)
  | fuel + 1, sched, pending, window, acc, wsizes, hw, hws => by
    rw [execLoop]
    rcases hf : fill k pending window with ⟨p', wl⟩
    have hwl : wl.length ≤ k := by
      have := fill_window_le k pending window hw
      rw [hf] at this
      exact this
    rcases wl with _ | ⟨w, ws⟩
    · intro s hs
      exact hws s (by simpa using hs)
    · simp only []
      have hjlt : sched.headD 0 % (w :: ws).length < (w :: ws).length :=
        Nat.mod_lt _ (by simp)
      have hpick := pick_perm (sched.headD 0 % (w :: ws).length) (w :: ws) hjlt
      have hlen2 : (pick (sched.headD 0 % (w :: ws).length) (w :: ws)).2.length + 1 =
          (w :: ws).length := by
        have h0 := hpick.length_eq
        rw [List.length_cons] at h0
        exact h0
      refine execLoop_wsizes_le fuel sched.tail p' _ _ _ (by omega) ?_
      intro s hs
      rcases List.mem_cons.mp hs with rfl | hs
      · exact hwl
      · exact hws s hs

theorem runWindow_fst_perm {k : Nat} (hk : 1 ≤ k) (sched : List Nat) (urls : List String) :
    ((runWindow k sched urls).1).Perm urls.enum := by
  unfold runWindow
  have h := execLoop_fst_perm hk urls.length sched urls.enum [] [] []
    (by simp [List.enum_length])
  simpa using h

theorem runWindow_wsizes_le (k : Nat) (sched : List Nat) (urls : List String) :
    ∀ s ∈ (runWindow k sched urls).2, s ≤ k :=
  execLoop_wsizes_le urls.length sched urls.enum [] [] [] (by simp) (by simp)

theorem runWindow_find? {k : Nat} (hk : 1 ≤ k) (sched : List Nat) (urls : List String)
    {i : Nat} (hi : i < urls.length) :
    ((runWindow k sched urls).1.find? fun p => p.1 == i) = some (i, urls.get ⟨i, hi⟩) := by
  have hperm := runWindow_fst_perm hk sched urls
  have hmem : (i, urls.get ⟨i, hi⟩) ∈ (runWindow k sched urls).1 := by
    rw [hperm.mem_iff, List.mem_enum_iff_get?]
    exact List.get?_eq_get hi
  have hsome : ((runWindow k sched urls).1.find? fun p => p.1 == i).isSome := by
    rw [List.find?_isSome]
    exact ⟨_, hmem, by simp⟩
  obtain ⟨x, hx⟩ := Option.isSome_iff_exists.mp hsome
  have hpx : x.1 = i := by simpa using List.find?_some hx
  have hxmem : x ∈ urls.enum := hperm.mem_iff.mp (List.mem_of_find?_eq_some hx)
  have hxget : urls.get? x.1 = some x.2 := List.mem_enum_iff_get?.mp hxmem
  rw [hx]
  rcases x with ⟨xi, xu⟩
  simp only at hpx
  subst hpx
  rw [List.get?_eq_get hi] at hxget
  simp only [Option.some.injEq] at hxget
  rw [hxget]

theorem filterMap_eq_map_of_forall_some {α β : Type} (g : α → β) :
    ∀ (l : List α) (f : α → Option β), (∀ a ∈ l, f a = some (g a)) →
      l.filterMap f = l.map g
  | [], _, _ => rfl
  | a :: l, f, h => by
    rw [List.filterMap_cons, h a (by simp), List.map_cons,
      filterMap_eq_map_of_forall_some g l f fun x hx => h x (by simp [hx])]

theorem map_getD_range_eq_map {β : Type} (fetch : String → β) :
    ∀ urls : List String,
      (List.range urls.length).map (fun i => fetch (urls.getD i "")) = urls.map fetch
  | [] => rfl
  | u :: us => by
    rw [List.length_cons, List.range_succ_eq_map]
    simp only [List.map_cons, List.map_map]
    congr 1
    rw [← map_getD_range_eq_map fetch us]
    apply List.map_congr_left
    intro i _
    rfl

theorem ordered_get_eq_map (fetch : String → Nat × String) {k : Nat} (sched : List Nat)
    (urls : List String) (hk : 1 ≤ k) :
    ordered_get fetch k sched urls = urls.map fetch := by
  unfold ordered_get
  rw [filterMap_eq_map_of_forall_some (fun i => fetch (urls.getD i ""))]
  · exact map_getD_range_eq_map fetch urls
  · intro i hi
    have hi' : i < urls.length := List.mem_range.mp hi
    rw [runWindow_find? hk sched urls hi']
    rw [List.getD_eq_get?, List.get?_eq_get hi']
    rfl

theorem unordered_get_length (fetch : String → Nat × String) {k : Nat} (sched : List Nat)
    (urls : List String) (hk : 1 ≤ k) :
    (unordered_get fetch k sched urls).length = urls.length := by
  unfold unordered_get
  rw [List.length_map, (runWindow_fst_perm hk sched urls).length_eq, List.enum_length]

theorem ordered_get_nil (fetch : String → Nat × String) (k : Nat) (sched : List Nat) :
    ordered_get fetch k sched [] = [] := rfl

theorem statistic_eq_statistic_spec (data : List ℚ) : statistic data = statistic_spec data := by
  by_cases h : data = []
  · subst h; rfl
  · have hl : data.length ≠ 0 := by simpa [List.length_eq_zero] using h
    rw [statistic, statistic_spec, if_neg hl, if_neg h]
    simp only []
    have hmap : data.map
        (fun value => (data.sum / (data.length : ℚ) - value) *
          (data.sum / (data.length : ℚ) - value)) =
        data.map
        (fun x => (x - data.sum / (data.length : ℚ)) * (x - data.sum / (data.length : ℚ))) := by
      apply List.map_congr_left
      intro x _
      ring
    rw [hmap]

/-! ### The claims -/

/-- C2: for every sequence of samples, `statistic` computes exactly the
spec's formulas — mean `Σx / n` and population variance `Σ(x-μ)² / n`
(divisor `n`, not `n-1`), the reported standard deviation being the square
root of the variance; in particular on `[10,12,23,23,16,23,21,16]` it
yields mean `18` and variance `24`, whose square root agrees with the
claimed standard deviation `4.8989797` to within `10⁻⁶`. -/
theorem C2_statistic_formula :
    (∀ data : List ℚ, statistic data = statistic_spec data) ∧
      statistic [10, 12, 23, 23, 16, 23, 21, 16] = some (18, 24) ∧
      |Real.sqrt 24 - 4.8989797| < 1 / 1000000 := by
  refine ⟨statistic_eq_statistic_spec, by norm_num [statistic], ?_⟩
  have h1 : Real.sqrt 24 < 4.8989797 := by
    rw [Real.sqrt_lt' (by norm_num)]
    norm_num
  have h2 : (4.8989787 : ℝ) < Real.sqrt 24 := by
    rw [show (4.8989787 : ℝ) = 48989787 / 10000000 by norm_num]
    rw [Real.lt_sqrt (by norm_num)]
    norm_num
  rw [abs_sub_lt_iff]
  constructor <;> linarith

/-- C9: on a single sample `[x]`, `statistic` returns the sample itself as
the mean and variance exactly `0`, whose square root — the reported
standard deviation — is exactly `0`. -/
theorem C9_singleton_statistic :
    ∀ x : ℚ, statistic [x] = some (x, 0) ∧ Real.sqrt 0 = 0 := by
  intro x
  refine ⟨?_, Real.sqrt_zero⟩
  norm_num [statistic]

/-- C4: `statistic` returns `none` exactly on the empty sample sequence,
and a test with `repeats = 0` makes the trial runner fail with the
`emptyRepeats` fatal error (the `expect("Repeats equal zero")` panic)
instead of returning a result. -/
theorem C4_empty_statistic :
    (∀ data : List ℚ, statistic data = none ↔ data = []) ∧
      ∀ (env : Env) (tidx : Nat) (test : Test), test.repeats = 0 →
        runTest env tidx test = .error (.emptyRepeats, []) :=
  ⟨statistic_eq_none_iff, fun _ _ _ h => runTest_of_repeats_zero h⟩

theorem C4_witness :
    (statistic [] = none ↔ ([] : List ℚ) = []) ∧
      runTest okEnv 0 wTestZero = .error (.emptyRepeats, []) :=
  ⟨C4_empty_statistic.1 [], C4_empty_statistic.2 okEnv 0 wTestZero rfl⟩

/-- C5: the batch executor's window holds at most `k` requests at every
completion instant, and (for `k ≥ 1`) both the ordered and the unordered
mode return exactly one outcome per submitted URL. -/
theorem C5_concurrency_window (fetch : String → Nat × String) (k : Nat) (sched : List Nat)
    (urls : List String) :
    (∀ s ∈ (runWindow k sched urls).2, s ≤ k) ∧
      (1 ≤ k → (ordered_get fetch k sched urls).length = urls.length ∧
        (unordered_get fetch k sched urls).length = urls.length) := by
  refine ⟨runWindow_wsizes_le k sched urls,
    fun hk => ⟨?_, unordered_get_length fetch sched urls hk⟩⟩
  rw [ordered_get_eq_map fetch sched urls hk, List.length_map]

theorem C5_witness :
    (ordered_get wFetch 2 [1, 0, 1] ["a", "b", "c"]).length =
        (["a", "b", "c"] : List String).length ∧
      (unordered_get wFetch 2 [1, 0, 1] ["a", "b", "c"]).length =
        (["a", "b", "c"] : List String).length :=
  (C5_concurrency_window wFetch 2 [1, 0, 1] ["a", "b", "c"]).2 (by decide)

/-- C6: in ordered mode the outcome vector equals the input URLs mapped
through the single-request exchange, whatever the completion schedule:
position `i` of the result corresponds to `urls[i]`. -/
theorem C6_ordered_preserves_order (fetch : String → Nat × String) (k : Nat)
    (sched : List Nat) (urls : List String) (hk : 1 ≤ k) :
    ordered_get fetch k sched urls = urls.map fetch ∧
      ∀ i (hi : i < urls.length),
        (ordered_get fetch k sched urls).get? i = some (fetch (urls.get ⟨i, hi⟩)) := by
  refine ⟨ordered_get_eq_map fetch sched urls hk, ?_⟩
  intro i hi
  rw [ordered_get_eq_map fetch sched urls hk, List.get?_map, List.get?_eq_get hi]
  rfl

theorem C6_witness :
    ordered_get wFetch 2 [1, 0, 1] ["a", "b", "c"] =
      (["a", "b", "c"] : List String).map wFetch :=
  (C6_ordered_preserves_order wFetch 2 [1, 0, 1] ["a", "b", "c"] (by decide)).1

/-- C7: a suite run that finishes without a fatal abort returns exactly one
result per input test, in input order: the `i`-th returned pair is the
statistic of the `i`-th test's trial times. -/
theorem C7_suite_results (env : Env) (tests : List Test) (title : String)
    (res : List (ℚ × ℚ)) (evs : List Event)
    (h : average_time env tests title = .ok (res, evs)) :
    res.length = tests.length ∧
      ∀ i (hi : i < tests.length),
        res.get? i = statistic (trialTimes env i (tests.get ⟨i, hi⟩)) := by
  have h' : averageTimeAux env 0 tests [] [] = .ok (res, evs) := h
  obtain ⟨hlen, -, hget, -⟩ := averageTimeAux_ok_inv h'
  refine ⟨by simpa using hlen, ?_⟩
  intro i hi
  have hg := hget i hi
  simpa using hg

theorem C7_witness : wRes.length = wTests.length :=
  (C7_suite_results okEnv wTests "suite" wRes wTrace
    (by norm_num [average_time, averageTimeAux, runTest, runTrials, runTrialsAux, trialStep,
      trialUrls, sleepEvents, firstBadStatus, isSuccessStatus, statistic, okEnv, wTests, wRes,
      wTrace, List.range', List.find?])).1

/-- C8: a test with `repeats = r ≥ 1` that completes without a fatal error
records exactly `r` timing samples — one per trial, each trial invoking
the executor with `concurrent_requests` and `requests_number` copies of
`url_get` — and its reported pair is the statistic of exactly those `r`
samples. -/
theorem C8_trial_samples (env : Env) (tidx : Nat) (test : Test) (ms : ℚ × ℚ)
    (evs : List Event) (_hrep : 1 ≤ test.repeats)
    (h : runTest env tidx test = .ok (ms, evs)) :
    samplesOf evs = trialTimes env tidx test ∧
      (samplesOf evs).length = test.repeats ∧
      callsOf evs = List.replicate test.repeats
        (Event.call test.concurrent_requests
          (List.replicate test.requests_number test.url_get)) ∧
      statistic (samplesOf evs) = some ms := by
  obtain ⟨hms, hevs, -⟩ := runTest_ok_inv h
  have hsamp : samplesOf evs = trialTimes env tidx test := by
    rw [hevs, samplesOf_trialsEvents]
    rfl
  refine ⟨hsamp, ?_, ?_, ?_⟩
  · rw [hsamp]
    simp [trialTimes]
  · rw [hevs, callsOf_trialsEvents]
    simp [trialUrls]
  · rw [hsamp, hms]

theorem C8_witness :
    samplesOf wTrace8 = trialTimes okEnv 0 wTestA ∧
      (samplesOf wTrace8).length = wTestA.repeats ∧
      callsOf wTrace8 = List.replicate wTestA.repeats
        (Event.call wTestA.concurrent_requests
          (List.replicate wTestA.requests_number wTestA.url_get)) ∧
      statistic (samplesOf wTrace8) = some (1, 0) :=
  C8_trial_samples okEnv 0 wTestA (1, 0) wTrace8 (by decide)
    (by norm_num [runTest, runTrials, runTrialsAux, trialStep, trialUrls, sleepEvents,
      firstBadStatus, isSuccessStatus, statistic, okEnv, wTestA, wTrace8, List.range',
      List.find?])

/-- C1 counterexample: the claim predicts a sleep of `delay_s = 5` seconds
before trial 2 of the suite's first (and only) test, since `idx = 2 > 1`;
but the code (`idx != 1 && test_idx != 0`) never sleeps during the first
test, and the run's trace contains no sleep event at all. -/
theorem C1_counterexample :
    cexTests = [{ label := "t1", url_get := "u", requests_number := 0,
                  concurrent_requests := 1, repeats := 2, delay_s := 5 }] ∧
      average_time okEnv cexTests "suite" =
        .ok ([(1, 0)],
          [Event.call 1 [], Event.sample 1, Event.call 1 [], Event.sample 1]) ∧
      sleepsOf [Event.call 1 [], Event.sample 1, Event.call 1 [], Event.sample 1] = [] := by
  refine ⟨rfl, ?_, rfl⟩
  norm_num [average_time, averageTimeAux, runTest, runTrials, runTrialsAux, trialStep,
    trialUrls, sleepEvents, firstBadStatus, isSuccessStatus, statistic, okEnv, cexTests,
    List.range', List.find?]

/-- C1 (amended): in a suite run the trial runner sleeps `delay_s` seconds
before trial `idx` of the test at 0-based suite index `tidx` iff `idx > 1`
AND `tidx > 0`: the whole first test never sleeps, and the first trial of
every later test does not sleep either; consequently a successful run's
sleep trace is, per test after the first, `repeats - 1` sleeps of that
test's own `delay_s`. -/
theorem C1_amended_sleep_rule :
    (∀ (env : Env) (tests : List Test) (title : String) (res : List (ℚ × ℚ))
      (evs : List Event), average_time env tests title = .ok (res, evs) →
        sleepsOf evs = expectedSleeps 0 tests) ∧
      ∀ (env : Env) (tidx : Nat) (test : Test) (idx : Nat), 1 ≤ idx →
        sleepsOf (trialStepTrace env tidx test idx) =
          if 1 < idx ∧ 0 < tidx then [test.delay_s] else [] := by
  constructor
  · intro env tests title res evs h
    have h' : averageTimeAux env 0 tests [] [] = .ok (res, evs) := h
    obtain ⟨-, -, -, hevs⟩ := averageTimeAux_ok_inv h'
    rw [hevs]
    simpa using sleepsOf_testsEvents env tests 0
  · intro env tidx test idx hidx
    rw [sleepsOf_trialStepTrace]
    have hiff : (idx ≠ 1 ∧ tidx ≠ 0) ↔ (1 < idx ∧ 0 < tidx) := by
      constructor <;> exact fun ⟨a, b⟩ => ⟨by omega, by omega⟩
    simp only [hiff]

theorem C1_amended_witness :
    sleepsOf wTrace2 = expectedSleeps 0 wTests2 ∧
      sleepsOf (trialStepTrace okEnv 1 wTestB 2) =
        if 1 < 2 ∧ 0 < 1 then [wTestB.delay_s] else [] :=
  ⟨C1_amended_sleep_rule.1 okEnv wTests2 "suite" [(1, 0), (1, 0)] wTrace2
      (by norm_num [average_time, averageTimeAux, runTest, runTrials, runTrialsAux, trialStep,
        trialUrls, sleepEvents, firstBadStatus, isSuccessStatus, statistic, okEnv, wTests2,
        wTestA, wTestB, wTrace2, List.range', List.find?]),
   C1_amended_sleep_rule.2 okEnv 1 wTestB 2 (by decide)⟩

/-- C3: if every test before `t` passes, the trials of `t` before trial
`idx` all succeed, and trial `idx` of `t` returns a response containing a
non-success status `c`, then the whole suite run aborts with
`badStatus c`: its trace is exactly the earlier tests' events, the earlier
trials' events and trial `idx`'s own events — so no later trial of `t` and
no later test runs (exactly `idx` executor calls are made for `t`), and no
`(mean, stddev)` pair is produced for `t` or any other test. -/
theorem C3_abort_on_bad_status (env : Env) (ts1 : List Test) (t : Test) (ts2 : List Test)
    (title : String) (idx c : Nat) (res1 : List (ℚ × ℚ)) (s2 : List ℚ)
    (evs1 evs2 evs3 : List Event)
    (h1 : averageTimeAux env 0 ts1 [] [] = .ok (res1, evs1))
    (h2 : runTrialsAux env ts1.length t (List.range' 1 (idx - 1)) [] [] = .ok (s2, evs2))
    (h3 : trialStep env ts1.length t idx = .error (.badStatus c, evs3))
    (h4 : 1 ≤ idx) (h5 : idx ≤ t.repeats) :
    average_time env (ts1 ++ t :: ts2) title = .error (.badStatus c, evs1 ++ evs2 ++ evs3) ∧
      (callsOf (evs2 ++ evs3)).length = idx := by
  have hsplit : List.range' 1 t.repeats =
      List.range' 1 (idx - 1) ++ idx :: List.range' (idx + 1) (t.repeats - idx) := by
    have h := List.range'_append 1 (idx - 1) (t.repeats - idx + 1) 1
    have e2 : 1 + 1 * (idx - 1) = idx := by omega
    have e3 : t.repeats - idx + 1 + (idx - 1) = t.repeats := by omega
    rw [e2, e3] at h
    rw [← h, List.range'_succ]
  have hrt : runTrials env ts1.length t = .error (.badStatus c, evs2 ++ evs3) := by
    unfold runTrials
    rw [hsplit, runTrialsAux_append, h2]
    simp only []
    rw [runTrialsAux, h3]
  have hruntest : runTest env ts1.length t = .error (.badStatus c, evs2 ++ evs3) := by
    unfold runTest
    rw [hrt]
  constructor
  · rw [average_time, averageTimeAux_append, h1]
    simp only []
    have e0 : (0 : Nat) + ts1.length = ts1.length := by omega
    rw [e0, averageTimeAux, hruntest]
    simp only []
    rw [List.append_assoc]
  · obtain ⟨-, he2, -⟩ := runTrialsAux_ok_inv h2
    obtain ⟨c', -, -, he3⟩ := trialStep_error_inv h3
    have l2 : (callsOf evs2).length = idx - 1 := by
      rw [he2]
      simp only [List.nil_append]
      rw [callsOf_trialsEvents]
      simp
    have l3 : (callsOf evs3).length = 1 := by
      have hsl : callsOf (sleepEvents ts1.length idx t) = [] := by
        unfold sleepEvents callsOf
        split <;> simp [List.filter_cons]
      rw [he3, callsOf_append, hsl]
      simp [callsOf, List.filter_cons]
    rw [callsOf_append, List.length_append, l2, l3]
    omega

theorem C3_witness :
    average_time badEnv [wTestBad] "suite" =
        .error (.badStatus 500, [] ++ [] ++ [Event.call 1 ["u"]]) ∧
      (callsOf ([] ++ [Event.call 1 ["u"]])).length = 1 :=
  C3_abort_on_bad_status badEnv [] wTestBad [] "suite" 1 500 [] [] [] [] [Event.call 1 ["u"]]
    rfl rfl rfl (by decide) (by decide)

/-- C10: for a test with `requests_number = 0` and `repeats ≥ 1` running
against the modelled ordered executor, every trial invokes the executor
with the empty URL vector, the executor returns the empty outcome vector,
status validation passes vacuously (the run completes without a fatal
abort), one timing sample is still recorded per trial, and the test yields
a statistic result. -/
theorem C10_zero_requests (fetch : String → Nat × String) (sched : Nat → Nat → List Nat)
    (elapsed : Nat → Nat → ℚ) (env : Env) (tidx : Nat) (test : Test)
    (henv : env = ⟨fun ti idx conc urls => ordered_get fetch conc (sched ti idx) urls, elapsed⟩)
    (hreq : test.requests_number = 0) (hrep : 1 ≤ test.repeats) :
    (∀ (k' : Nat) (s' : List Nat), ordered_get fetch k' s' [] = []) ∧
      (runTest env tidx test).isOk = true ∧
      callsOf (runTestTrace env tidx test) =
        List.replicate test.repeats (Event.call test.concurrent_requests []) ∧
      (samplesOf (runTestTrace env tidx test)).length = test.repeats ∧
      statistic (samplesOf (runTestTrace env tidx test)) ≠ none := by
  have hurls : trialUrls test = [] := by simp [trialUrls, hreq]
  have hexec : ∀ idx, env.exec tidx idx test.concurrent_requests (trialUrls test) = [] := by
    intro idx
    rw [henv, hurls]
    exact ordered_get_nil fetch test.concurrent_requests (sched tidx idx)
  have hall : ∀ idx ∈ List.range' 1 test.repeats,
      firstBadStatus (env.exec tidx idx test.concurrent_requests (trialUrls test)) = none := by
    intro idx _
    rw [hexec]
    rfl
  have hne : statistic (trialTimes env tidx test) ≠ none := by
    intro habs
    rw [statistic_eq_none_iff] at habs
    have : (trialTimes env tidx test).length = 0 := by rw [habs]; rfl
    rw [trialTimes, List.length_map, List.length_range'] at this
    omega
  obtain ⟨ms, hms⟩ := Option.ne_none_iff_exists'.mp hne
  have hok := runTest_ok_of hall hms
  have htrace : runTestTrace env tidx test =
      trialsEvents env tidx test (List.range' 1 test.repeats) := by
    unfold runTestTrace
    rw [hok]
  refine ⟨fun k' s' => ordered_get_nil fetch k' s', by rw [hok]; rfl, ?_, ?_, ?_⟩
  · rw [htrace, callsOf_trialsEvents, hurls]
    simp
  · rw [htrace, samplesOf_trialsEvents]
    simp
  · rw [htrace, samplesOf_trialsEvents]
    have : (List.range' 1 test.repeats).map (env.elapsed tidx) = trialTimes env tidx test := rfl
    rw [this, hms]
    simp

theorem C10_witness :
    ordered_get wFetch 1 [] [] = [] ∧
      (runTest mEnv 0 wTestZeroReq).isOk = true ∧
      callsOf (runTestTrace mEnv 0 wTestZeroReq) =
        List.replicate wTestZeroReq.repeats
          (Event.call wTestZeroReq.concurrent_requests []) ∧
      (samplesOf (runTestTrace mEnv 0 wTestZeroReq)).length = wTestZeroReq.repeats ∧
      statistic (samplesOf (runTestTrace mEnv 0 wTestZeroReq)) ≠ none := by
  have h := C10_zero_requests wFetch (fun _ _ => []) (fun _ _ => 1) mEnv 0 wTestZeroReq
    rfl rfl (by decide)
  exact ⟨h.1 1 [], h.2.1, h.2.2.1, h.2.2.2.1, h.2.2.2.2⟩

end Benchmark
